import Mathlib

/-!
Verification development for the `agent-usage-monitor` quota engine.

This file shallowly embeds the Python sources (`utils.py`, `gemini_cli.py`,
`antigravity.py`, `main.py`) as executable Lean definitions and proves the
frozen claims about them.  Python floats are modelled as rationals, JSON
payloads as an inductive tree, raising code as `Except String`, and the
OS / network / subprocess collaborators as explicit oracle inputs.
-/

set_option maxHeartbeats 1000000

namespace UsageMonitor

/-- JSON tree values, as produced by `json.loads` / HTTP response bodies.
Objects are field lists in insertion order (Python dicts preserve it);
keys are assumed unique as `json.loads` keeps one binding per key. -/
inductive Json where
  | jnull
  | jbool (b : Bool)
  | jnum (q : ℚ)
  | jstr (s : String)
  | jarr (xs : List Json)
  | jobj (fields : List (String × Json))

/-- Python truthiness of a JSON value (`if x:`). -/
def Json.truthy : Json → Bool
  | .jnull => false
  | .jbool b => b
  | .jnum q => q != 0
  | .jstr s => s != ""
  | .jarr xs => !xs.isEmpty
  | .jobj fs => !fs.isEmpty

/-- Is this JSON value the Python `None` (JSON `null`)? -/
def Json.isNull : Json → Bool
  | .jnull => true
  | _ => false

/-- Python `d.get(k)` on an object's field list: first binding for `k`, if any. -/
def jget (fields : List (String × Json)) (k : String) : Option Json :=
  (fields.find? (fun p => p.1 = k)).map Prod.snd

/-- Python `d.get(k, default)`. -/
def jgetD (fields : List (String × Json)) (k : String) (d : Json) : Json :=
  (jget fields k).getD d

/-- Python's `\s` class (`str.strip` whitespace): space, tab, LF, CR, VT, FF. -/
def pySpace (c : Char) : Bool :=
  c = ' ' || c = '\t' || c = '\n' || c = '\r' || c = '\x0b' || c = '\x0c'

/-- Does `cs` start with the literal `needle`? -/
def startsChars : List Char → List Char → Bool
  | [], _ => true
  | _ :: _, [] => false
  | n :: ns, c :: cs => n = c && startsChars ns cs

/-- Substring containment on character lists (Python `needle in hay`). -/
def containsSub : List Char → List Char → Bool
  | hay, needle =>
    if startsChars needle hay then true
    else
      match hay with
      | [] => false
      | _ :: t => containsSub t needle

/-- Python `needle in hay` for strings. -/
def strContains (hay needle : String) : Bool :=
  containsSub hay.data needle.data

/-- Python `str.lower()` (ASCII case folding suffices for the markers used). -/
def strLower (s : String) : String :=
  ⟨s.data.map Char.toLower⟩

/-- Numeric value of a digit run. -/
def digitsToNat (ds : List Char) : ℕ :=
  ds.foldl (fun a c => a * 10 + (c.toNat - '0'.toNat)) 0

/-- Drop leading and trailing characters satisfying `p` (Python `str.strip`). -/
def trimBy (p : Char → Bool) (cs : List Char) : List Char :=
  ((cs.dropWhile p).reverse.dropWhile p).reverse

/-- Exponent tail of a float literal: empty, or `e`/`E` with optional sign and
digits, consuming the whole rest. -/
def parseExpTail : List Char → Option ℤ
  | [] => some 0
  | 'e' :: rest => parseExpSigned rest
  | 'E' :: rest => parseExpSigned rest
  | _ => none
where
  parseExpSigned : List Char → Option ℤ
    | '+' :: ds => parseExpDigits ds
    | '-' :: ds => (parseExpDigits ds).map Neg.neg
    | ds => parseExpDigits ds
  parseExpDigits (ds : List Char) : Option ℤ :=
    if ds ≠ [] ∧ ds.all Char.isDigit then some (digitsToNat ds : ℤ) else none

/-- Unsigned decimal core of a Python float literal: digits, optional point
and fraction digits, optional exponent; at least one digit overall. -/
def parseDecCore (cs : List Char) : Option ℚ :=
  let (ip, rest) := cs.span Char.isDigit
  match rest with
  | '.' :: rest2 =>
    let (fp, rest3) := rest2.span Char.isDigit
    if ip.isEmpty && fp.isEmpty then none
    else
      (parseExpTail rest3).map fun e =>
        ((digitsToNat ip : ℚ) + (digitsToNat fp : ℚ) / (10 : ℚ) ^ fp.length) * (10 : ℚ) ^ e
  | _ =>
    if ip.isEmpty then none
    else (parseExpTail rest).map fun e => (digitsToNat ip : ℚ) * (10 : ℚ) ^ e

/-- Python `float(s)` on a string, modelled for finite decimal literals
(optional whitespace, sign, digits, point, exponent).  The special forms
`inf`/`nan` and underscore separators are outside the model; no claim
depends on them. -/
def pyFloatOfString (s : String) : Option ℚ :=
  match trimBy pySpace s.data with
  | '+' :: rest => parseDecCore rest
  | '-' :: rest => (parseDecCore rest).map Neg.neg
  | rest => parseDecCore rest

/-- Python `int(s)` on a string: optional whitespace, sign, decimal digits. -/
def pyIntOfString (s : String) : Option ℤ :=
  match trimBy pySpace s.data with
  | '+' :: ds => if ds ≠ [] ∧ ds.all Char.isDigit then some (digitsToNat ds : ℤ) else none
  | '-' :: ds => if ds ≠ [] ∧ ds.all Char.isDigit then some (-(digitsToNat ds : ℤ)) else none
  | ds => if ds ≠ [] ∧ ds.all Char.isDigit then some (digitsToNat ds : ℤ) else none

/-- Python `int(q)` on a float: truncation toward zero. -/
def pyTrunc (q : ℚ) : ℤ := q.num / (q.den : ℤ)

/-- A Python `datetime` value.  `epochSecs` is the instant as seconds since
the Unix epoch: the absolute UTC instant when `aware = true`, and the
wall-clock fields read as if they were UTC when `aware = false` (naive).
The source serializes these with `isoformat()`; we carry the value itself,
which determines that string. -/
structure PyDateTime where
  epochSecs : ℚ
  aware : Bool
deriving DecidableEq, Repr

/-- Smallest epoch second representable by `datetime` (0001-01-01T00:00:00). -/
def minEpoch : ℤ := -62135596800

/-- Largest integral epoch second representable (9999-12-31T23:59:59). -/
def maxEpoch : ℤ := 253402300799

/-- Python `datetime.fromtimestamp(n, tz=timezone.utc)` for an integer `n`:
an aware UTC datetime, or an error (modelled `none`) outside the
year 1–9999 range. -/
def fromtimestampUtc (n : ℤ) : Option PyDateTime :=
  if minEpoch ≤ n ∧ n ≤ maxEpoch then some ⟨(n : ℚ), true⟩ else none

/-- Days from 1970-01-01 to the civil date y-m-d (Gregorian), floor-division
form of the standard civil-from-days inverse. -/
def daysFromCivil (y m d : ℤ) : ℤ :=
  let y2 := if m ≤ 2 then y - 1 else y
  let era := Int.fdiv y2 400
  let yoe := y2 - era * 400
  let mp := Int.emod (m + 9) 12
  let doy := Int.fdiv (153 * mp + 2) 5 + d - 1
  let doe := yoe * 365 + Int.fdiv yoe 4 - Int.fdiv yoe 100 + doy
  era * 146097 + doe - 719468

/-- Gregorian leap year. -/
def isLeapYear (y : ℤ) : Bool :=
  (Int.emod y 4 = 0 && Int.emod y 100 ≠ 0) || Int.emod y 400 = 0

/-- Days in a month. -/
def daysInMonth (y m : ℤ) : ℤ :=
  if m = 2 then (if isLeapYear y then 29 else 28)
  else if m = 4 ∨ m = 6 ∨ m = 9 ∨ m = 11 then 30
  else 31

/-- Take exactly `n` digits from the front. -/
def takeDigits (n : ℕ) (cs : List Char) : Option (ℕ × List Char) :=
  let ds := cs.take n
  if ds.length = n ∧ ds.all Char.isDigit then some (digitsToNat ds, cs.drop n) else none

/-- Timezone suffix of an ISO-like string: `Z` or `±HH[:]MM`; returns the
offset in seconds.  `none` result component = no suffix (naive). -/
def parseTzTail : List Char → Option (Option ℤ)
  | [] => some none
  | ['Z'] => some (some 0)
  | '+' :: rest => (parseTzOffset rest).map (fun off => some off)
  | '-' :: rest => (parseTzOffset rest).map (fun off => some (-off))
  | _ => none
where
  parseTzOffset (cs : List Char) : Option ℤ := do
    let (hh, r1) ← takeDigits 2 cs
    let r2 := match r1 with
      | ':' :: t => t
      | t => t
    let (mm, r3) ← takeDigits 2 r2
    if r3 = [] ∧ hh ≤ 23 ∧ mm ≤ 59 then some ((hh : ℤ) * 3600 + mm * 60) else none

/-- Clock part `HH:MM[:SS[.frac]]` plus timezone tail: seconds into the day
(as a rational) and the optional offset. -/
def parseClockTail (cs : List Char) : Option (ℚ × Option ℤ) := do
  let (hh, r1) ← takeDigits 2 cs
  match r1 with
  | ':' :: r2 => do
    let (mi, r3) ← takeDigits 2 r2
    let step : ℚ × List Char ← match r3 with
      | ':' :: r4 => do
        let (ss, r5) ← takeDigits 2 r4
        match r5 with
        | '.' :: r6 =>
          let (fd, r7) := r6.span Char.isDigit
          if fd.isEmpty then none
          else some ((ss : ℚ) + (digitsToNat fd : ℚ) / (10 : ℚ) ^ fd.length, r7)
        | _ => some ((ss : ℚ), r5)
      | _ => some ((0 : ℚ), r3)
    let (secs, rest) := step
    let (mi2, ss2) := (mi, secs)
    if hh ≤ 23 ∧ mi2 ≤ 59 ∧ ss2 < 60 then
      (parseTzTail rest).map fun off => ((hh : ℚ) * 3600 + (mi2 : ℚ) * 60 + ss2, off)
    else none
  | _ => none

/-- Model of `dateutil.parser.parse` restricted to ISO-8601-like inputs
`YYYY-MM-DD[( |T)HH:MM[:SS[.frac]]][Z|±HH[:]MM]` (the shapes the probed
payloads carry).  Returns an aware datetime exactly when the string has an
explicit offset designator, a naive one otherwise — dateutil attaches no
timezone when the text names none.  All other strings (including bare
digit runs such as epoch numbers, which dateutil rejects) yield `none`. -/
def dateutilParse (s : String) : Option PyDateTime := do
  let cs := s.data
  let (y, r1) ← takeDigits 4 cs
  let r2 ← match r1 with
    | '-' :: t => some t
    | _ => none
  let (m, r3) ← takeDigits 2 r2
  let r4 ← match r3 with
    | '-' :: t => some t
    | _ => none
  let (d, r5) ← takeDigits 2 r4
  if 1 ≤ m ∧ m ≤ 12 ∧ 1 ≤ d ∧ (d : ℤ) ≤ daysInMonth y m then
    let base : ℚ := (daysFromCivil (y : ℤ) (m : ℤ) (d : ℤ) : ℚ) * 86400
    match r5 with
    | [] => some ⟨base, false⟩
    | 'T' :: r6 => finish base r6
    | ' ' :: r6 => finish base r6
    | _ => none
  else none
where
  finish (base : ℚ) (r : List Char) : Option PyDateTime := do
    let (daySecs, off) ← parseClockTail r
    match off with
    | some o => some ⟨base + daySecs - (o : ℚ), true⟩
    | none => some ⟨base + daySecs, false⟩

/-- Inputs of `try_parse_time` (`Any` in the source): Python `None`, ints,
floats, strings, or anything else. -/
inductive PyVal where
  | vnone
  | vint (n : ℤ)
  | vfloat (q : ℚ)
  | vstr (s : String)
  | vother

/-- Python `utils.try_parse_time`: `None` for `None`; for ints/floats
`datetime.fromtimestamp(int(v), tz=utc)` with any error giving `None`;
for strings `dateutil.parser.parse`, falling back to
`fromtimestamp(int(float(v)))`, any error giving `None`; `None` otherwise. -/
def try_parse_time : PyVal → Option PyDateTime
  | .vnone => none
  | .vint n => fromtimestampUtc n
  | .vfloat q => fromtimestampUtc (pyTrunc q)
  | .vstr s =>
    match dateutilParse s with
    | some dt => some dt
    | none =>
      match pyFloatOfString s with
      | some q => fromtimestampUtc (pyTrunc q)
      | none => none
  | .vother => none

/-- Coercion from a JSON field value to a `try_parse_time` argument.
JSON `true`/`false` are Python bools, which are `int` instances (1/0);
arrays/objects fall to the final `return None` branch of the source. -/
def pyValOfJson : Json → PyVal
  | .jnull => .vnone
  | .jbool b => .vint (if b then 1 else 0)
  | .jnum q => .vfloat q
  | .jstr s => .vstr s
  | .jarr _ => .vother
  | .jobj _ => .vother

/-! ## Gemini probe: quota extraction (`gemini_cli.py`) -/

/-- One parsed model quota from the bucket path, before the tier grouping
has forced `model_id` to be a string (the source stores `bucket.get("modelId")`
unchecked and only `model_id.lower()` in the grouping comprehensions raises
on a non-string). -/
structure RawQuota where
  model_id : Json
  remaining_fraction : ℚ
  reset_time : Option PyDateTime

/-- A model quota as it appears in the returned `model_quotas` list
(all ids are strings whenever the function returns instead of raising). -/
structure ModelQuota where
  model_id : String
  remaining_fraction : ℚ
  reset_time : Option PyDateTime
deriving Repr

/-- One tier summary built by the bucket path. -/
structure TierSummary where
  tier : String
  remaining_fraction : ℚ
  reset_time : Option PyDateTime
  models : List String
deriving Repr

/-- The dict returned by the bucket path of `_extract_quota_from_api_resp`. -/
structure ApiQuota where
  remaining_fraction : Option ℚ
  reset_time : Option PyDateTime
  tiers : List TierSummary
  model_quotas : List ModelQuota
  raw : Json

/-- The dict returned by `_extract_quota_legacy`. -/
structure LegacyQuota where
  remaining_fraction : Option ℚ
  reset_time : Option PyDateTime
  raw : Json

/-- Python `_extract_quota_from_api_resp` returns one of two dict shapes. -/
inductive ExtractResult where
  | bucketed (q : ApiQuota)
  | legacy (l : LegacyQuota)

/-- Python `float(x)` on a JSON value where the source would call `float`;
Python bools are ints (`float(True) = 1.0`), non-numeric values raise. -/
def pyFloatExc : Json → Except String ℚ
  | .jnum q => .ok q
  | .jbool b => .ok (if b then 1 else 0)
  | .jstr s =>
    match pyFloatOfString s with
    | some q => .ok q
    | none => .error "ValueError: could not convert string to float"
  | _ => .error "TypeError: float() argument must be a string or a real number"

/-- One iteration of the bucket loop in `_extract_quota_from_api_resp`:
`bucket.get` demands a dict; a bucket whose `modelId` is falsy or whose
`remainingFraction` is `None`/absent is skipped; otherwise `resetTime` is
parsed when truthy and `float(fraction)` may raise. -/
def parseBucketRaw (b : Json) : Except String (Option RawQuota) :=
  match b with
  | .jobj fs =>
    let modelId := jgetD fs "modelId" .jnull
    let fractionJ := jgetD fs "remainingFraction" .jnull
    let resetJ := jgetD fs "resetTime" .jnull
    if modelId.truthy && !fractionJ.isNull then
      let reset_dt := if resetJ.truthy then try_parse_time (pyValOfJson resetJ) else none
      match pyFloatExc fractionJ with
      | .ok q => .ok (some ⟨modelId, q, reset_dt⟩)
      | .error e => .error e
    else .ok none
  | _ => .error "AttributeError: object has no attribute get"

/-- The bucket loop: buckets processed in order, dropped ones contribute
nothing, the first raising one aborts. -/
def parseBuckets : List Json → Except String (List RawQuota)
  | [] => .ok []
  | b :: rest => do
    let r ← parseBucketRaw b
    let rs ← parseBuckets rest
    match r with
    | some q => .ok (q :: rs)
    | none => .ok rs

/-- The grouping comprehensions call `q["model_id"].lower()`, which raises
unless the id is a string. -/
def rawToModel (q : RawQuota) : Except String ModelQuota :=
  match q.model_id with
  | .jstr s => .ok ⟨s, q.remaining_fraction, q.reset_time⟩
  | _ => .error "AttributeError: object has no attribute lower"

/-- Python `min(xs, key=f)` (first minimum wins), `None` on empty input. -/
def minBy (f : α → ℚ) : List α → Option α
  | [] => none
  | x :: xs => some (xs.foldl (fun acc y => if f y < f acc then y else acc) x)

/-- Does this model belong to the given tier substring (`sub in id.lower()`)? -/
def tierMatch (sub : String) (q : ModelQuota) : Bool :=
  strContains (strLower q.model_id) sub

/-- Tier grouping and headline of the bucket path, applied to the parsed
`model_quotas` (nonempty by the guard in the caller): the `pro`/`flash`
comprehensions, per-tier minima, tier summaries, and the overall minimum
over `pro_quotas + flash_quotas`. -/
def buildApiQuota (models : List ModelQuota) (rawResp : Json) : ApiQuota :=
  let pro_quotas := models.filter (tierMatch "pro")
  let flash_quotas := models.filter (tierMatch "flash")
  let pro_min := minBy (fun q => q.remaining_fraction) pro_quotas
  let flash_min := minBy (fun q => q.remaining_fraction) flash_quotas
  let proTiers : List TierSummary :=
    match pro_min with
    | some pm => [⟨"Pro", pm.remaining_fraction, pm.reset_time, pro_quotas.map (fun q => q.model_id)⟩]
    | none => []
  let flashTiers : List TierSummary :=
    match flash_min with
    | some fm => [⟨"Flash", fm.remaining_fraction, fm.reset_time, flash_quotas.map (fun q => q.model_id)⟩]
    | none => []
  let all_quotas := pro_quotas ++ flash_quotas
  let overall_min := minBy (fun q => q.remaining_fraction) all_quotas
  { remaining_fraction := overall_min.map (fun q => q.remaining_fraction)
    reset_time := overall_min.bind (fun q => q.reset_time)
    tiers := proTiers ++ flashTiers
    model_quotas := models
    raw := rawResp }

/-- Key set searched for fraction-like values by the legacy path. -/
def remKeysList : List String :=
  ["remainingFraction", "remaining_fraction", "remaining", "remainingPercent"]

/-- Key set searched for reset/time-like values by the legacy path. -/
def resetKeysList : List String :=
  ["resetTime", "reset_time", "resetAt", "resetAtMs", "reset"]

mutual
/-- Python `find_keys` of `_extract_quota_legacy`: recursively collect the values of
any matching key; per object field the value itself (when its key matches)
precedes the values found inside it. -/
def find_keys (d : Json) (keys : List String) : List Json :=
  match d with
  | .jobj fields => findKeysFields fields keys
  | .jarr xs => findKeysElems xs keys
  | _ => []

/-- Python `find_keys` over an object's fields, in order. -/
def findKeysFields (fields : List (String × Json)) (keys : List String) : List Json :=
  match fields with
  | [] => []
  | (k, v) :: rest =>
    (if k ∈ keys then [v] else []) ++ find_keys v keys ++ findKeysFields rest keys

/-- Python `find_keys` over an array's elements, in order. -/
def findKeysElems (xs : List Json) (keys : List String) : List Json :=
  match xs with
  | [] => []
  | x :: rest => find_keys x keys ++ findKeysElems rest keys
end

/-- One fraction candidate of the legacy path: strings first lose every `%`
and surrounding whitespace, then `float(c)`; numbers and bools convert;
everything else raises and is skipped. -/
def pyFloatCandidate : Json → Option ℚ
  | .jstr s =>
    if strContains s "%" then pyFloatOfString ⟨trimBy pySpace (s.data.filter (fun c => c ≠ '%'))⟩
    else pyFloatOfString s
  | .jnum q => some q
  | .jbool b => some (if b then 1 else 0)
  | _ => none

/-- The fraction loop of `_extract_quota_legacy`: the first candidate that
parses as a number in `[0,1]` is kept unchanged, the first in `(1,100]` is
divided by 100; candidates that fail to parse or fall outside `[0,100]`
are skipped. -/
def legacyRemOfCandidates : List Json → Option ℚ
  | [] => none
  | c :: rest =>
    match pyFloatCandidate c with
    | none => legacyRemOfCandidates rest
    | some v =>
      if 0 ≤ v ∧ v ≤ 1 then some v
      else if 1 < v ∧ v ≤ 100 then some (v / 100)
      else legacyRemOfCandidates rest

/-- The reset loop of `_extract_quota_legacy`: first candidate that
`try_parse_time` accepts (datetimes are always truthy). -/
def legacyResetOfCandidates : List Json → Option PyDateTime
  | [] => none
  | c :: rest =>
    match try_parse_time (pyValOfJson c) with
    | some dt => some dt
    | none => legacyResetOfCandidates rest

/-- Python `GeminiProbe._extract_quota_legacy`. -/
def extract_quota_legacy (resp : Json) : Option LegacyQuota :=
  let rem := legacyRemOfCandidates (find_keys resp remKeysList)
  let reset := legacyResetOfCandidates (find_keys resp resetKeysList)
  if rem.isNone && reset.isNone then none
  else some ⟨rem, reset, resp⟩

/-- Python `GeminiProbe._extract_quota_from_api_resp` on a dict (`resp.get` raises
on anything else, handled at the call sites).  A falsy `buckets` value falls
back to the legacy parser; a truthy non-array one raises in the source when
its elements (dict keys, string characters, or nothing iterable) hit
`bucket.get`. -/
def extract_quota_from_api_resp (fields : List (String × Json)) :
    Except String (Option ExtractResult) :=
  let buckets := jgetD fields "buckets" (.jarr [])
  if !buckets.truthy then
    .ok ((extract_quota_legacy (.jobj fields)).map ExtractResult.legacy)
  else
    match buckets with
    | .jarr bs => do
      let raws ← parseBuckets bs
      if raws.isEmpty then
        .ok none
      else do
        let models ← raws.mapM rawToModel
        .ok (some (.bucketed (buildApiQuota models (.jobj fields))))
    | _ => .error "TypeError: object is not iterable"

/-- The dict returned by `_extract_quota_from_cli_raw` on free text. -/
structure CliRawQuota where
  remaining_fraction : Option ℚ
  reset_time : Option PyDateTime
  raw_text : String

/-- Scanner for `re.search(r"Remaining[:\s]+([0-9]+(?:\.[0-9]+)?)", txt, IGNORECASE)`
at one position: the literal word, one or more of colon/whitespace, then the
captured number (integer part, optional fraction part). -/
def remainingMatchAt (cs : List Char) : Option ℚ :=
  match dropLower "remaining".data cs with
  | none => none
  | some r1 =>
    let (sep, r2) := r1.span (fun c => c = ':' || pySpace c)
    if sep.isEmpty then none
    else
      let (ip, r3) := r2.span Char.isDigit
      if ip.isEmpty then none
      else
        match r3 with
        | '.' :: r4 =>
          let (fp, _) := r4.span Char.isDigit
          if fp.isEmpty then some (digitsToNat ip : ℚ)
          else some ((digitsToNat ip : ℚ) + (digitsToNat fp : ℚ) / (10 : ℚ) ^ fp.length)
        | _ => some (digitsToNat ip : ℚ)
where
  /-- Case-insensitive literal match, returning the rest of the input. -/
  dropLower : List Char → List Char → Option (List Char)
    | [], cs => some cs
    | _ :: _, [] => none
    | p :: ps, c :: cs => if p.toLower = c.toLower then dropLower ps cs else none

/-- Python `re.search` scan for the `Remaining` pattern: first matching position. -/
def remainingScan : List Char → Option ℚ
  | [] => none
  | c :: t =>
    match remainingMatchAt (c :: t) with
    | some v => some v
    | none => remainingScan t

/-- Scanner for the ISO-timestamp regex
`(\d{4}-\d{2}-\d{2}T\d{2}:\d{2}:\d{2}(?:\.\d+)?Z?)` at one position,
returning the matched text. -/
def isoMatchAt (cs : List Char) : Option (List Char) := do
  let (d1, r1) ← grabDigits 4 cs
  let r2 ← lit '-' r1
  let (d2, r3) ← grabDigits 2 r2
  let r4 ← lit '-' r3
  let (d3, r5) ← grabDigits 2 r4
  let r6 ← lit 'T' r5
  let (d4, r7) ← grabDigits 2 r6
  let r8 ← lit ':' r7
  let (d5, r9) ← grabDigits 2 r8
  let r10 ← lit ':' r9
  let (d6, r11) ← grabDigits 2 r10
  let (frac, r12) :=
    match r11 with
    | '.' :: t =>
      let (fd, rest) := t.span Char.isDigit
      if fd.isEmpty then ([], r11) else ('.' :: fd, rest)
    | _ => ([], r11)
  let z := match r12 with
    | 'Z' :: _ => ['Z']
    | _ => []
  some (d1 ++ ['-'] ++ d2 ++ ['-'] ++ d3 ++ ['T'] ++ d4 ++ [':'] ++ d5 ++ [':'] ++ d6 ++ frac ++ z)
where
  grabDigits (n : ℕ) (cs : List Char) : Option (List Char × List Char) :=
    let ds := cs.take n
    if ds.length = n ∧ ds.all Char.isDigit then some (ds, cs.drop n) else none
  lit (c : Char) : List Char → Option (List Char)
    | x :: rest => if x = c then some rest else none
    | [] => none

/-- Python `re.search` scan for the ISO-timestamp pattern. -/
def isoScan : List Char → Option (List Char)
  | [] => none
  | c :: t =>
    match isoMatchAt (c :: t) with
    | some m => some m
    | none => isoScan t

/-- Python `GeminiProbe._extract_quota_from_cli_raw` on free text (its only call
site passes the `cli-raw` string payload, so the `isinstance(payload, dict)`
branch never fires there).  Note its normalizer differs from the legacy one:
any value `> 1` is divided by 100, with no upper bound. -/
def extract_quota_from_cli_raw (txt : String) : Option CliRawQuota :=
  let rem :=
    match remainingScan txt.data with
    | some v => some (if 1 < v then v / 100 else v)
    | none => none
  let reset_dt :=
    match isoScan txt.data with
    | some m => try_parse_time (.vstr ⟨m⟩)
    | none => none
  if rem.isNone && reset_dt.isNone then none
  else some ⟨rem, reset_dt, txt⟩

/-! ## Probe result envelopes (`antigravity.py`, `gemini_cli.py`, `main.py`) -/

/-- One rendered quota item of the Antigravity `items` list (the source
serializes `reset_time` with `isoformat()`; we carry the value). -/
structure RenderedItem where
  label : String
  remaining_fraction : Option ℚ
  remaining_percent : String
  reset_time : Option PyDateTime

/-- The `mapped_primary` sub-dict. -/
structure PrimaryView where
  label : String
  remaining_fraction : Option ℚ
  remaining_percent : String
  reset_time : Option PyDateTime

/-- Values appearing in a probe's result dict. -/
inductive RVal where
  | rB (b : Bool)
  | rS (s : String)
  | rI (n : ℤ)
  | rItems (xs : List RenderedItem)
  | rPrim (p : PrimaryView)
  | rParsed (p : ExtractResult)
  | rCliParsed (p : CliRawQuota)
  | rJson (j : Json)
  | rNone

/-- A probe result: the string-keyed mapping each `run()` returns. -/
def ProbeDict := List (String × RVal)

/-- Key lookup in a probe result. -/
def rget (d : ProbeDict) (k : String) : Option RVal :=
  (d.find? (fun p => p.1 = k)).map Prod.snd

/-- Python `utils.pretty_pct`: percentage with one decimal (`"?"` when unknown).
The decimal rounding is modelled exactly on rationals (the source formats
the IEEE double with `"%.1f"`, round-half-even). -/
def pretty_pct (f : Option ℚ) : String :=
  match f with
  | none => "?"
  | some q =>
    let n := roundHalfEven (q * 100 * 10)
    let a := n.natAbs
    (if n < 0 then "-" else "") ++ toString (a / 10) ++ "." ++ toString (a % 10) ++ "%"
where
  roundHalfEven (x : ℚ) : ℤ :=
    let fl := ⌊x⌋
    let fr := x - fl
    if fr < 1/2 then fl
    else if 1/2 < fr then fl + 1
    else if fl % 2 = 0 then fl else fl + 1

/-! ## Gemini probe run (`gemini_cli.py: GeminiProbe.run`) -/

/-- Outcome of `try_cli_stats`: parsed JSON (`cli-json`) or raw text
(`cli-raw`); `none` models every failure path. -/
inductive CliOutcome where
  | cliJson (j : Json)
  | cliRaw (t : String)

/-- Collaborator inputs of one `GeminiProbe.run` invocation. -/
structure GemEnv where
  creds : Option Json
  apiResp : Option Json
  cliResp : Option CliOutcome

/-- Truthiness of an `Option Json` as the source's `if x:` over values that
can be `None`. -/
def optTruthy : Option Json → Bool
  | none => false
  | some j => j.truthy

/-- Token lookup in the creds dict: `creds.get("access_token") or
creds.get("token")`, then `if token:`. -/
def credsToken (creds : Json) : Option Json :=
  match creds with
  | .jobj fs =>
    let a := jgetD fs "access_token" .jnull
    if a.truthy then some a
    else
      let t := jgetD fs "token" .jnull
      if t.truthy then some t else none
  | _ => none

/-- Python `_extract_quota_from_api_resp` as called on an arbitrary JSON payload:
`resp.get` raises unless it is a dict. -/
def extractOnJson (j : Json) : Except String (Option ExtractResult) :=
  match j with
  | .jobj fs => extract_quota_from_api_resp fs
  | _ => .error "AttributeError: object has no attribute get"

/-- The creds-backed API attempt of `GeminiProbe.run`: yields the early
`return` envelope when creds held a truthy token and the API call produced
a truthy payload, `none` when the run falls through to the CLI. -/
def gemApiStage (env : GemEnv) : Except String (Option ProbeDict) :=
  match env.creds with
  | some (Json.jobj cfs) =>
    match credsToken (.jobj cfs) with
    | some _ =>
      if optTruthy env.apiResp then
        match env.apiResp with
        | some apiJson => do
          let parsed ← extractOnJson apiJson
          match parsed with
          | some p => pure (some [("ok", .rB true), ("method", .rS "api"), ("parsed", .rParsed p)])
          | none => pure (some [("ok", .rB true), ("method", .rS "api"), ("parsed", .rNone),
                                ("raw", .rJson apiJson)])
        | none => pure none
      else pure none
    | none => pure none
  | _ => pure none

/-- The CLI fallback of `GeminiProbe.run`, including the final `ok=false`
envelope when no CLI output was obtained either. -/
def gemCliStage (env : GemEnv) : Except String ProbeDict :=
  match env.cliResp with
  | some (.cliJson payload) => do
    let parsed ← extractOnJson payload
    match parsed with
    | some p => pure [("ok", .rB true), ("method", .rS "cli-json"), ("parsed", .rParsed p)]
    | none => pure [("ok", .rB true), ("method", .rS "cli-json"), ("parsed", .rNone),
                    ("raw", .rJson payload)]
  | some (.cliRaw t) =>
    match extract_quota_from_cli_raw t with
    | some p => pure [("ok", .rB true), ("method", .rS "cli-raw"), ("parsed", .rCliParsed p)]
    | none => pure [("ok", .rB true), ("method", .rS "cli-raw"), ("parsed", .rNone),
                    ("raw_text", .rS t)]
  | none => pure [("ok", .rB false), ("reason", .rS "No Gemini credentials or CLI output found / parsed")]

/-- Python `GeminiProbe.run`: creds-backed API first, CLI fallback second, the
final `ok=false` envelope when neither produced output.  Exceptions escaping
(from extraction on a malformed payload) are modelled as `Except.error` and
caught only by the orchestrator in `main.py`. -/
def gemProbeRun (env : GemEnv) : Except String ProbeDict := do
  let apiStage ← gemApiStage env
  match apiStage with
  | some r => pure r
  | none => gemCliStage env

/-! ## Antigravity probe (`antigravity.py`) -/

/-- Python `AntigravityQuotaItem` dataclass.  Labels are modelled as strings: a
truthy non-string label would make the source raise in
`best_mapping_choice`'s `lower()` before `run` returns, which the parsing
stage reports as an error (see `parseQuotaItem`). -/
structure AntigravityQuotaItem where
  label : String
  remaining_fraction : Option ℚ
  reset_time : Option PyDateTime
deriving Repr, DecidableEq

/-- Python `_extract_flag_from_cmd`: consume the literal flag, then `=` or a
whitespace run, then capture the maximal nonempty run of non-whitespace
characters — the tail of `re.search(flag + r"(?:=|\s+)([^\s]+)")` at one
position. -/
def matchFlagAt (flag cs : List Char) : Option (List Char) :=
  match dropLit flag cs with
  | none => none
  | some rest =>
    match rest with
    | '=' :: r2 =>
      let (tok, _) := r2.span (fun c => !pySpace c)
      if tok.isEmpty then none else some tok
    | _ =>
      let (ws, r2) := rest.span pySpace
      if ws.isEmpty then none
      else
        let (tok, _) := r2.span (fun c => !pySpace c)
        if tok.isEmpty then none else some tok
where
  dropLit : List Char → List Char → Option (List Char)
    | [], cs => some cs
    | _ :: _, [] => none
    | p :: ps, c :: cs => if p = c then dropLit ps cs else none

/-- The `re.search` scan of `_extract_flag_from_cmd`: first position where
the flag pattern matches. -/
def flagScan (flag : List Char) : List Char → Option (List Char)
  | [] => none
  | c :: t =>
    match matchFlagAt flag (c :: t) with
    | some v => some v
    | none => flagScan flag t

/-- Python `AntigravityProbe._extract_flag_from_cmd` (the flag is `re.escape`d,
hence literal). -/
def extract_flag_from_cmd (cmdline flag : String) : Option String :=
  (flagScan flag.data cmdline.data).map (fun cs => ⟨cs⟩)

/-- One psutil connection record as seen by `get_listening_ports`:
its status string, owning pid (`None` possible), and local address port
(`none` models a falsy `laddr`). -/
structure ConnInfo where
  isListen : Bool
  pid : Option ℤ
  laddrPort : Option ℤ

/-- Set insertion (`ports.add`), keeping first-insertion order; the order is
irrelevant after the final sort. -/
def setAdd (l : List ℤ) (x : ℤ) : List ℤ :=
  if x ∈ l then l else l ++ [x]

/-- The psutil pass of `get_listening_ports`: every LISTEN connection of
`pid` with a truthy local address contributes its port. -/
def netConnPorts (conns : List ConnInfo) (pid : ℤ) : List ℤ :=
  conns.foldl
    (fun acc c =>
      match c.laddrPort with
      | some p => if c.isListen && c.pid == some pid then setAdd acc p else acc
      | none => acc)
    []

/-- Scanner for `re.search(r":(\d+)\s+\(LISTEN\)", line)` at one position. -/
def lsofMatchAt : List Char → Option ℤ
  | ':' :: rest =>
    let (ds, r2) := rest.span Char.isDigit
    if ds.isEmpty then none
    else
      let (ws, r3) := r2.span pySpace
      if ws.isEmpty then none
      else if startsChars "(LISTEN)".data r3 then some (digitsToNat ds : ℤ)
      else none
  | _ => none

/-- The `re.search` scan for the lsof pattern. -/
def lsofScan : List Char → Option ℤ
  | [] => none
  | c :: t =>
    match lsofMatchAt (c :: t) with
    | some v => some v
    | none => lsofScan t

/-- The lsof fallback pass: first match of each output line
(`splitlines` modelled as newline splitting). -/
def lsofPorts (ports : List ℤ) (out : String) : List ℤ :=
  (out.splitOn "\n").foldl
    (fun acc line =>
      match lsofScan line.data with
      | some p => setAdd acc p
      | none => acc)
    ports

/-- Python `AntigravityProbe.get_listening_ports`: psutil first; when that raised or
found nothing, parse `lsof` output; every OS error (modelled `Except.error`)
degrades to the empty set; result is `sorted(set(...))`. -/
def get_listening_ports (netConns : Except Unit (List ConnInfo))
    (lsofOut : Except Unit String) (pid : ℤ) : List ℤ :=
  let ports :=
    match netConns with
    | .ok conns => netConnPorts conns pid
    | .error _ => []
  let ports :=
    if ports.isEmpty then
      match lsofOut with
      | .ok out => lsofPorts [] out
      | .error _ => []
    else ports
  ports.insertionSort (· ≤ ·)

/-- An HTTP call's outcome: a response with status and (optionally
JSON-parseable) body, or a transport exception (`requests.RequestException`;
a body that fails `r.json()` on the primary request raises the
`RequestException` subclass `JSONDecodeError` and is modelled as
`body = none`). -/
inductive HttpOutcome where
  | resp (status : ℕ) (body : Option Json)
  | exc

/-- Python `AntigravityProbe.fetch_user_status` over the outcomes of its primary
and fallback POSTs: primary body on status 200; otherwise the fallback's
body on status 200, **or on any status when the body parses** (the bare
`return r.json()` after the status check); `RuntimeError` when the fallback
also fails or its body is unparseable. -/
def fetch_user_status (primary fallback : HttpOutcome) : Except String Json :=
  match primary with
  | .resp 200 (some j) => .ok j
  | _ =>
    match fallback with
    | .resp status (some j) =>
      if status = 200 then .ok j else .ok j
    | .resp _ none => .error "Antigravity quota endpoints failed"
    | .exc => .error "Antigravity quota endpoints failed"

/-- Did the primary request succeed (status 200 with parseable body)? -/
def primarySuccess : HttpOutcome → Bool
  | .resp 200 (some _) => true
  | _ => false

/-- Navigation step `j.get(k, default)` usable only on dicts. -/
def navGet (j : Json) (k : String) (d : Json) : Option Json :=
  match j with
  | .jobj fs => some (jgetD fs k d)
  | _ => none

/-- The `configs` navigation of `parse_quota_items`: the `.get` chain with
`{}`/`[]` defaults, any `AttributeError` caught to `[]`, then the
`isinstance(configs, list)` guard. -/
def quotaConfigs (js : Json) : List Json :=
  let chain : Option Json := do
    let a ← navGet js "userStatus" (.jobj [])
    let b ← navGet a "cascadeModelConfigData" (.jobj [])
    navGet b "clientModelConfigs" (.jarr [])
  match chain with
  | some (.jarr xs) => xs
  | _ => []

/-- One iteration of the `parse_quota_items` loop.  `c.get` demands a dict;
the label is the first truthy of `label`/`modelLabel` (else `""`), required
to be a string (a truthy non-string label raises unconditionally later in
`best_mapping_choice` before `run` returns, an error we surface here); a
truthy non-dict `quotaInfo` raises at `quota.get`; the remaining fraction
keeps any value `float` accepts, unchanged; `resetTime` goes through
`try_parse_time` as-is. -/
def parseQuotaItem (c : Json) : Except String AntigravityQuotaItem :=
  match c with
  | .jobj fs =>
    let labelJ :=
      let l1 := jgetD fs "label" .jnull
      if l1.truthy then l1
      else
        let l2 := jgetD fs "modelLabel" .jnull
        if l2.truthy then l2 else .jstr ""
    match labelJ with
    | .jstr label =>
      let quotaJ :=
        let q := jgetD fs "quotaInfo" (.jobj [])
        if q.truthy then q else .jobj []
      match quotaJ with
      | .jobj qfs =>
        let rem := jgetD qfs "remainingFraction" .jnull
        let reset := jgetD qfs "resetTime" .jnull
        let reset_dt := try_parse_time (pyValOfJson reset)
        let rem_val : Option ℚ :=
          match rem with
          | .jnum q => some q
          | .jbool b => some (if b then 1 else 0)
          | .jstr s => pyFloatOfString s
          | _ => none
        .ok ⟨label, rem_val, reset_dt⟩
      | _ => .error "AttributeError: object has no attribute get"
    | _ => .error "AttributeError: object has no attribute lower"
  | _ => .error "AttributeError: object has no attribute get"

/-- Python `AntigravityProbe.parse_quota_items`. -/
def parse_quota_items (js : Json) : Except String (List AntigravityQuotaItem) :=
  (quotaConfigs js).mapM parseQuotaItem

/-- Rule 1 of the selection policy: label contains `claude` but not
`thinking` (case-insensitive). -/
def rule1 (it : AntigravityQuotaItem) : Bool :=
  strContains (strLower it.label) "claude" && !strContains (strLower it.label) "thinking"

/-- Rule 2: label contains both `pro` and `low`. -/
def rule2 (it : AntigravityQuotaItem) : Bool :=
  strContains (strLower it.label) "pro" && strContains (strLower it.label) "low"

/-- Rule 3: label contains both `gemini` and `flash`. -/
def rule3 (it : AntigravityQuotaItem) : Bool :=
  strContains (strLower it.label) "gemini" && strContains (strLower it.label) "flash"

/-- One step of the rule-4 loop of `best_mapping_choice`: items with unknown
fraction are skipped, and the accumulator is replaced only on a strictly
smaller fraction (`it.remaining_fraction < chosen.remaining_fraction`). -/
def rule4Step (acc : Option (AntigravityQuotaItem × ℚ)) (it : AntigravityQuotaItem) :
    Option (AntigravityQuotaItem × ℚ) :=
  match it.remaining_fraction with
  | none => acc
  | some f =>
    match acc with
    | none => some (it, f)
    | some (_, cf) => if f < cf then some (it, f) else acc

/-- Rule 4 of `best_mapping_choice` as written in the source: fold keeping
the strictly smallest known fraction (first wins ties). -/
def rule4Fold (items : List AntigravityQuotaItem) : Option AntigravityQuotaItem :=
  (items.foldl rule4Step none).map Prod.fst

/-- Python `AntigravityProbe.best_mapping_choice`: the four ordered rules. -/
def best_mapping_choice (items : List AntigravityQuotaItem) : Option AntigravityQuotaItem :=
  match items.find? rule1 with
  | some it => some it
  | none =>
    match items.find? rule2 with
    | some it => some it
    | none =>
      match items.find? rule3 with
      | some it => some it
      | none => rule4Fold items

/-- Minimum of a list of rationals (`none` on empty). -/
def listMinQ : List ℚ → Option ℚ
  | [] => none
  | q :: rest =>
    match listMinQ rest with
    | none => some q
    | some m => some (min q m)

/-- The selection policy as the spec words it: the three label rules
top-to-bottom by first match, else the item with the strictly smallest
known `remaining_fraction`, ties broken by encounter order (the first item
attaining the minimum of all known fractions), items with unknown fraction
ignored; `none` when nothing matches. -/
def specBestChoice (items : List AntigravityQuotaItem) : Option AntigravityQuotaItem :=
  match items.find? rule1 with
  | some it => some it
  | none =>
    match items.find? rule2 with
    | some it => some it
    | none =>
      match items.find? rule3 with
      | some it => some it
      | none =>
        match listMinQ (items.filterMap (fun it => it.remaining_fraction)) with
        | none => none
        | some m => items.find? (fun it => decide (it.remaining_fraction = some m))

/-- Collaborator inputs of one `AntigravityProbe.run` invocation.
`proc` carries the discovered process's pid and joined command line
(`""` when `p.cmdline()` raised); `portOk` tells which candidate ports
answer the trial request with status 200. -/
structure AgEnv where
  proc : Option (ℤ × String)
  netConns : Except Unit (List ConnInfo)
  lsofOut : Except Unit String
  portOk : ℤ → Bool
  fetchPrimary : HttpOutcome
  fetchFallback : HttpOutcome

/-- Candidate ports for the run: listening ports with a parseable
`--extension_server_port` value moved to the front (prepended even when it
was not listed). -/
def agPortsFor (env : AgEnv) (pid : ℤ) (cmdline : String) : List ℤ :=
  let ports := get_listening_ports env.netConns env.lsofOut pid
  match extract_flag_from_cmd cmdline "--extension_server_port" with
  | some s =>
    match pyIntOfString s with
    | some ep => ep :: ports.filter (fun x => x ≠ ep)
    | none => ports
  | none => ports

/-- Python `AntigravityProbe.probe_connect_port`: first candidate port answering
the trial POST with status 200, tried strictly in the order supplied. -/
def probe_connect_port (ports : List ℤ) (portOk : ℤ → Bool) : Option ℤ :=
  ports.find? portOk

/-- Python `AntigravityProbe.run`.  Every not-found condition returns an
`ok=false` envelope; raising code inside (only `parse_quota_items` here)
surfaces as `Except.error`, to be caught by the orchestrator. -/
def agProbeRun (env : AgEnv) : Except String ProbeDict := do
  match env.proc with
  | none => pure [("ok", .rB false), ("reason", .rS "Antigravity language server process not found")]
  | some (pid, cmdline) =>
    let csrf := extract_flag_from_cmd cmdline "--csrf_token"
    let ports := agPortsFor env pid cmdline
    match csrf with
    | none => pure [("ok", .rB false), ("reason", .rS "CSRF token not found in process arguments")]
    | some tok =>
      let _ := tok
      if ports.isEmpty then
        pure [("ok", .rB false), ("reason", .rS ("No listening ports found for pid " ++ toString pid))]
      else
        match probe_connect_port ports env.portOk with
        | none => pure [("ok", .rB false), ("reason", .rS "Could not find working connect port (probe failed)")]
        | some cp =>
          if cp = 0 then
            -- `if not connect_port:` also treats port 0 as a failure
            pure [("ok", .rB false), ("reason", .rS "Could not find working connect port (probe failed)")]
          else
            match fetch_user_status env.fetchPrimary env.fetchFallback with
            | .error e =>
              pure [("ok", .rB false), ("reason", .rS ("Failed to fetch user status: " ++ e))]
            | .ok js => do
              let items ← parse_quota_items js
              let mapped := best_mapping_choice items
              let parsedItems := items.map fun it =>
                RenderedItem.mk it.label it.remaining_fraction (pretty_pct it.remaining_fraction) it.reset_time
              pure [("ok", .rB true), ("pid", .rI pid), ("cmdline", .rS cmdline),
                    ("connect_port", .rI cp), ("items", .rItems parsedItems),
                    ("mapped_primary",
                      match mapped with
                      | some m => .rPrim ⟨m.label, m.remaining_fraction, pretty_pct m.remaining_fraction, m.reset_time⟩
                      | none => .rNone)]

/-- The orchestrator's per-probe wrapper in `main.py`: a probe result is
passed through, an escaped exception becomes `ok=false` with the exception
text in the reason. -/
def mainWrap (outcome : Except String ProbeDict) : ProbeDict :=
  match outcome with
  | .ok r => r
  | .error e => [("ok", .rB false), ("reason", .rS ("exception: " ++ e))]

/-- Data keys of the Antigravity success envelope. -/
def agDataKeys : List String := ["pid", "cmdline", "connect_port", "items", "mapped_primary"]

/-- Data keys of the Gemini success envelopes. -/
def gemDataKeys : List String := ["method", "parsed", "raw", "raw_text"]

/-- The uniform `ProbeResult` contract: an `ok` key is always present, and
an `ok=false` envelope carries a string reason and none of the probe's data
keys. -/
def resultInvariant (dataKeys : List String) (r : ProbeDict) : Prop :=
  (rget r "ok").isSome ∧
  (rget r "ok" = some (.rB false) →
    (∃ s, rget r "reason" = some (.rS s)) ∧ ∀ k ∈ dataKeys, rget r k = none)

/-! ## Theorems -/

/-- A minimum reported by `listMinQ` over the known fractions is attained by
some item, so the first-match search finds one. -/
lemma find_attains_min (items : List AntigravityQuotaItem) (m : ℚ)
    (h : listMinQ (items.filterMap (fun it => it.remaining_fraction)) = some m) :
    ∃ d, items.find? (fun it => decide (it.remaining_fraction = some m)) = some d := by
  induction items with
  | nil => simp [listMinQ] at h
  | cons x xs ih =>
    cases hx : x.remaining_fraction with
    | none =>
      simp only [List.filterMap_cons, hx] at h
      obtain ⟨d, hd⟩ := ih h
      exact ⟨d, by simp [List.find?, hx, hd]⟩
    | some f =>
      simp only [List.filterMap_cons, hx, listMinQ] at h
      cases hl : listMinQ (xs.filterMap (fun it => it.remaining_fraction)) with
      | none =>
        rw [hl] at h
        obtain rfl : f = m := by
          simpa using h
        exact ⟨x, by simp [List.find?, hx]⟩
      | some m2 =>
        rw [hl] at h
        obtain rfl : min f m2 = m := by
          simpa using h
        by_cases hfm : f ≤ m2
        · refine ⟨x, ?_⟩
          simp [List.find?, hx, min_eq_left hfm]
        · push_neg at hfm
          obtain ⟨d, hd⟩ := ih (by rw [hl, min_eq_right (le_of_lt hfm)])
          refine ⟨d, ?_⟩
          have hne : ¬(f = min f m2) := by
            rw [min_eq_right (le_of_lt hfm)]
            exact ne_of_gt hfm
          simp [List.find?, hx, hne, hd]

/-- Characterization of the rule-4 fold started from a chosen item:
it is replaced exactly when some later known fraction is strictly smaller,
by the first item attaining the minimum. -/
lemma foldl_rule4Step_some (xs : List AntigravityQuotaItem) :
    ∀ c cf, List.foldl rule4Step (some (c, cf)) xs =
      match listMinQ (xs.filterMap (fun it => it.remaining_fraction)) with
      | none => some (c, cf)
      | some m =>
        if m < cf then
          match xs.find? (fun it => decide (it.remaining_fraction = some m)) with
          | some d => some (d, m)
          | none => some (c, cf)
        else some (c, cf) := by
  induction xs with
  | nil => intro c cf; simp [listMinQ]
  | cons x xs ih =>
    intro c cf
    cases hx : x.remaining_fraction with
    | none =>
      have hstep : rule4Step (some (c, cf)) x = some (c, cf) := by
        simp [rule4Step, hx]
      simp only [List.foldl_cons, hstep, List.filterMap_cons, hx]
      rw [ih c cf]
      rcases hl : listMinQ (xs.filterMap (fun it => it.remaining_fraction)) with _ | m
      · simp [hl]
      · simp [hl, List.find?, hx]
    | some f =>
      have hstep : rule4Step (some (c, cf)) x =
          if f < cf then some (x, f) else some (c, cf) := by
        simp [rule4Step, hx]
      simp only [List.foldl_cons, hstep, List.filterMap_cons, hx, listMinQ]
      by_cases hfc : f < cf
      · rw [if_pos hfc, ih x f]
        rcases hl : listMinQ (xs.filterMap (fun it => it.remaining_fraction)) with _ | m2
        · simp [hl, List.find?, hx, hfc]
        · by_cases hmf : m2 < f
          · have hm : min f m2 = m2 := min_eq_right (le_of_lt hmf)
            have hne : ¬(f = m2) := ne_of_gt hmf
            obtain ⟨d, hd⟩ := find_attains_min xs m2 hl
            simp [hl, hm, hmf, lt_trans hmf hfc, List.find?, hx, hne, hd]
          · push_neg at hmf
            have hm : min f m2 = f := min_eq_left hmf
            simp [hl, hm, hmf, not_lt_of_le hmf, hfc, List.find?, hx]
      · rw [if_neg hfc, ih c cf]
        push_neg at hfc
        rcases hl : listMinQ (xs.filterMap (fun it => it.remaining_fraction)) with _ | m2
        · simp [hl, not_lt_of_le hfc]
        · by_cases hmf : m2 < f
          · have hm : min f m2 = m2 := min_eq_right (le_of_lt hmf)
            have hne : ¬(f = m2) := ne_of_gt hmf
            simp [hl, hm, List.find?, hx, hne]
          · push_neg at hmf
            have hm : min f m2 = f := min_eq_left hmf
            have h1 : ¬(f < cf) := not_lt_of_le hfc
            have h2 : ¬(m2 < cf) := not_lt_of_le (le_trans hfc hmf)
            simp [hl, hm, h1, h2]

/-- The source's rule-4 fold equals the spec's wording of rule 4: the first
item attaining the minimum of all known fractions (`none` when no fraction
is known). -/
lemma rule4Fold_eq_spec (items : List AntigravityQuotaItem) :
    rule4Fold items =
      match listMinQ (items.filterMap (fun it => it.remaining_fraction)) with
      | none => none
      | some m => items.find? (fun it => decide (it.remaining_fraction = some m)) := by
  induction items with
  | nil => rfl
  | cons x xs ih =>
    cases hx : x.remaining_fraction with
    | none =>
      have hstep : rule4Step none x = none := by simp [rule4Step, hx]
      unfold rule4Fold at ih ⊢
      simp only [List.foldl_cons, hstep, List.filterMap_cons, hx]
      rw [ih]
      rcases hl : listMinQ (xs.filterMap (fun it => it.remaining_fraction)) with _ | m
      · simp [hl]
      · simp [hl, List.find?, hx]
    | some f =>
      have hstep : rule4Step none x = some (x, f) := by simp [rule4Step, hx]
      unfold rule4Fold
      simp only [List.foldl_cons, hstep, List.filterMap_cons, hx, listMinQ]
      rw [foldl_rule4Step_some xs x f]
      rcases hl : listMinQ (xs.filterMap (fun it => it.remaining_fraction)) with _ | m2
      · simp [hl, List.find?, hx]
      · by_cases hmf : m2 < f
        · have hm : min f m2 = m2 := min_eq_right (le_of_lt hmf)
          have hne : ¬(f = m2) := ne_of_gt hmf
          obtain ⟨d, hd⟩ := find_attains_min xs m2 hl
          simp [hl, hm, hmf, List.find?, hx, hne, hd]
        · push_neg at hmf
          have hm : min f m2 = f := min_eq_left hmf
          simp [hl, hm, not_lt_of_le hmf, List.find?, hx]

/-- C4 (confirmed): `best_mapping_choice` selects by the ordered priority
rules, first match wins: rule 1 (`claude` without `thinking`), rule 2
(`pro` and `low`), rule 3 (`gemini` and `flash`), rule 4 (strictly smallest
known fraction, ties to the first encountered, unknown fractions ignored);
on the three-item example it picks `claude-3`, and with no matching rule
(e.g. the empty list) it returns `none` rather than failing. -/
theorem best_mapping_choice_follows_priority_rules :
    best_mapping_choice
        [⟨"claude-3-thinking", some (9/10), none⟩, ⟨"claude-3", some (1/2), none⟩,
         ⟨"gemini-flash", some (1/10), none⟩] =
      some ⟨"claude-3", some (1/2), none⟩
    ∧ (∀ items, best_mapping_choice items = specBestChoice items)
    ∧ best_mapping_choice [] = none := by
  refine ⟨rfl, fun items => ?_, rfl⟩
  unfold best_mapping_choice specBestChoice
  cases items.find? rule1 with
  | some it => rfl
  | none =>
    cases items.find? rule2 with
    | some it => rfl
    | none =>
      cases items.find? rule3 with
      | some it => rfl
      | none => exact rule4Fold_eq_spec items

/-- The literal-consumption step fails wherever the flag is not a prefix of
the remaining input. -/
lemma dropLit_none_of_not_starts :
    ∀ (flag cs : List Char), startsChars flag cs = false →
      matchFlagAt.dropLit flag cs = none := by
  intro flag
  induction flag with
  | nil => intro cs h; simp [startsChars] at h
  | cons p ps ih =>
    intro cs h
    cases cs with
    | nil => rfl
    | cons c t =>
      by_cases hpc : p = c
      · simp [startsChars, hpc] at h
        simp [matchFlagAt.dropLit, hpc, ih t h]
      · simp [matchFlagAt.dropLit, hpc]

/-- The one-position flag matcher fails wherever the flag is not a prefix. -/
lemma matchFlagAt_none_of_not_starts (flag cs : List Char)
    (h : startsChars flag cs = false) : matchFlagAt flag cs = none := by
  unfold matchFlagAt
  rw [dropLit_none_of_not_starts flag cs h]

/-- If the flag never occurs as a substring, the scan finds nothing. -/
lemma flagScan_none_of_not_contains (flag : List Char) :
    ∀ cs, containsSub cs flag = false → flagScan flag cs = none := by
  intro cs
  induction cs with
  | nil => intro _; rfl
  | cons c t ih =>
    intro h
    rw [containsSub] at h
    by_cases hs : startsChars flag (c :: t) = true
    · rw [if_pos hs] at h
      exact absurd h (by simp)
    · have hs' : startsChars flag (c :: t) = false := by
        cases hv : startsChars flag (c :: t)
        · rfl
        · exact absurd hv hs
      rw [if_neg (by simp [hs'])] at h
      show (match matchFlagAt flag (c :: t) with
            | some v => some v
            | none => flagScan flag t) = none
      rw [matchFlagAt_none_of_not_starts flag (c :: t) hs']
      exact ih h

/-- C8 (confirmed): `_extract_flag_from_cmd` accepts both `--flag=value`
and `--flag value` syntax at the first occurrence of the flag, regardless
of argument order, and returns `none` when the flag is absent from the
command line. -/
theorem extract_flag_first_occurrence :
    extract_flag_from_cmd "--csrf_token=ABC123 --foo bar" "--csrf_token" = some "ABC123"
    ∧ extract_flag_from_cmd "--csrf_token ABC123" "--csrf_token" = some "ABC123"
    ∧ extract_flag_from_cmd "--other x" "--csrf_token" = none
    ∧ extract_flag_from_cmd "--foo bar --csrf_token=ABC123" "--csrf_token" = some "ABC123"
    ∧ ∀ cmdline flag : String, strContains cmdline flag = false →
        extract_flag_from_cmd cmdline flag = none := by
  refine ⟨rfl, rfl, rfl, rfl, fun cmdline flag h => ?_⟩
  unfold extract_flag_from_cmd
  rw [flagScan_none_of_not_contains flag.data cmdline.data h]
  rfl

/-- Witness for C8: a command line that does not mention the flag at all
yields `none`. -/
theorem extract_flag_first_occurrence_witness :
    extract_flag_from_cmd "node server.js --port 80" "--csrf_token" = none :=
  extract_flag_first_occurrence.2.2.2.2 "node server.js --port 80" "--csrf_token" rfl

/-- Set insertion preserves distinctness. -/
lemma setAdd_nodup {l : List ℤ} {x : ℤ} (h : l.Nodup) : (setAdd l x).Nodup := by
  unfold setAdd
  by_cases hx : x ∈ l
  · simpa [hx] using h
  · simp [hx, List.nodup_append, h]

/-- A fold whose steps only ever keep or `setAdd` preserves distinctness. -/
lemma foldl_setAdd_nodup {α : Type} (g : List ℤ → α → List ℤ)
    (hg : ∀ acc a, g acc a = acc ∨ ∃ p, g acc a = setAdd acc p) :
    ∀ (xs : List α) (acc : List ℤ), acc.Nodup → (xs.foldl g acc).Nodup := by
  intro xs
  induction xs with
  | nil => intro acc h; exact h
  | cons a xs ih =>
    intro acc h
    rcases hg acc a with he | ⟨p, he⟩
    · simpa [List.foldl_cons, he] using ih acc h
    · simp only [List.foldl_cons, he]
      exact ih _ (setAdd_nodup h)

/-- The psutil pass produces no duplicate ports. -/
lemma netConnPorts_nodup (conns : List ConnInfo) (pid : ℤ) :
    (netConnPorts conns pid).Nodup := by
  unfold netConnPorts
  refine foldl_setAdd_nodup _ ?_ conns [] (by simp)
  intro acc c
  cases c.laddrPort with
  | none => exact Or.inl rfl
  | some p =>
    by_cases hc : c.isListen && c.pid == some pid
    · exact Or.inr ⟨p, by simp [hc]⟩
    · exact Or.inl (by simp [hc])

/-- The lsof pass produces no duplicate ports when started from a
duplicate-free set. -/
lemma lsofPorts_nodup (ports : List ℤ) (out : String) (h : ports.Nodup) :
    (lsofPorts ports out).Nodup := by
  unfold lsofPorts
  refine foldl_setAdd_nodup _ ?_ _ ports h
  intro acc line
  cases hl : lsofScan line.data with
  | none => exact Or.inl (by simp [hl])
  | some p => exact Or.inr ⟨p, by simp [hl]⟩

/-- C9 (confirmed): `get_listening_ports` always returns a sorted,
duplicate-free sequence, and when the psutil query fails and the lsof
fallback is unavailable or fails it returns the empty sequence (it never
propagates an error: it is a total function of the two oracle outcomes). -/
theorem get_listening_ports_sorted_dedup_total :
    (∀ netConns lsofOut pid, List.Sorted (· ≤ ·) (get_listening_ports netConns lsofOut pid)
      ∧ (get_listening_ports netConns lsofOut pid).Nodup)
    ∧ ∀ pid, get_listening_ports (.error ()) (.error ()) pid = [] := by
  constructor
  · intro netConns lsofOut pid
    unfold get_listening_ports
    refine ⟨List.sorted_insertionSort _ _, ?_⟩
    apply (List.perm_insertionSort _ _).nodup_iff.mpr
    rcases netConns with u | conns
    · rcases lsofOut with u2 | out
      · simp
      · simpa using lsofPorts_nodup [] out (by simp)
    · by_cases hp : (netConnPorts conns pid).isEmpty
      · rcases lsofOut with u2 | out
        · simp [hp]
        · simpa [hp] using lsofPorts_nodup [] out (by simp)
      · simpa [hp] using netConnPorts_nodup conns pid
  · intro pid; rfl

/-- C2 (code_bug): `try_parse_time` treats every integer as epoch seconds
and never divides milliseconds by 1000.  The epoch-millisecond value
`1700000000000` (2023-11-14T22:13:20Z) exceeds `datetime`'s year-9999
limit, so `fromtimestamp` raises and the function returns `None` instead
of the canonical conversion — while the same instant given in epoch
seconds parses to the canonical aware UTC datetime. -/
theorem try_parse_time_millis_not_canonical :
    try_parse_time (.vint 1700000000000) = none
    ∧ try_parse_time (.vint 1700000000) = some ⟨((1700000000 : ℤ) : ℚ), true⟩ :=
  ⟨rfl, rfl⟩

/-- Anything `fromtimestamp(..., tz=utc)` returns is timezone-aware. -/
lemma fromtimestampUtc_aware {n : ℤ} {dt : PyDateTime}
    (h : fromtimestampUtc n = some dt) : dt.aware = true := by
  unfold fromtimestampUtc at h
  split at h
  · cases h; rfl
  · simp at h

/-- C3 (amended, theorem): reset times produced from numeric epoch values —
directly or through the numeric-string fallback — are always timezone-aware
UTC instants; a naive result can arise only from a string the date parser
accepted, returned exactly as parsed (aware only when the text carries an
offset designator). -/
theorem try_parse_time_awareness :
    (∀ (n : ℤ) (dt : PyDateTime), try_parse_time (.vint n) = some dt → dt.aware = true)
    ∧ (∀ (q : ℚ) (dt : PyDateTime), try_parse_time (.vfloat q) = some dt → dt.aware = true)
    ∧ (∀ (s : String) (dt : PyDateTime), dateutilParse s = none →
        try_parse_time (.vstr s) = some dt → dt.aware = true)
    ∧ (∀ (v : PyVal) (dt : PyDateTime), try_parse_time v = some dt → dt.aware = false →
        ∃ s, v = .vstr s ∧ dateutilParse s = some dt) := by
  refine ⟨?_, ?_, ?_, ?_⟩
  · intro n dt h
    exact fromtimestampUtc_aware h
  · intro q dt h
    exact fromtimestampUtc_aware h
  · intro s dt h1 h2
    simp only [try_parse_time, h1] at h2
    rcases hq : pyFloatOfString s with _ | q
    · rw [hq] at h2; simp at h2
    · rw [hq] at h2
      exact fromtimestampUtc_aware h2
  · intro v dt h hfalse
    cases v with
    | vnone => simp [try_parse_time] at h
    | vint n =>
      rw [fromtimestampUtc_aware h] at hfalse
      cases hfalse
    | vfloat q =>
      rw [fromtimestampUtc_aware h] at hfalse
      cases hfalse
    | vstr s =>
      refine ⟨s, rfl, ?_⟩
      simp only [try_parse_time] at h
      rcases hd : dateutilParse s with _ | d
      · rw [hd] at h
        rcases hq : pyFloatOfString s with _ | q
        · rw [hq] at h; simp at h
        · rw [hq] at h
          rw [fromtimestampUtc_aware h] at hfalse
          cases hfalse
      · rw [hd] at h
        injection h with h7
        subst h7
        rfl
    | vother => simp [try_parse_time] at h

/-- Witness for C3: epoch second 0 parses to an aware datetime. -/
theorem try_parse_time_awareness_witness :
    (PyDateTime.mk ((0 : ℤ) : ℚ) true).aware = true :=
  try_parse_time_awareness.1 0 ⟨((0 : ℤ) : ℚ), true⟩ rfl

/-- Counterexample for C3: an ISO reset time without an offset yields a
quota item whose `reset_time` is a *naive* datetime (`aware = false`),
refuting "every reset_time attached to a QuotaItem is timezone-aware". -/
theorem parse_quota_items_naive_reset_counterexample :
    (parse_quota_items (.jobj [("userStatus", .jobj [("cascadeModelConfigData",
        .jobj [("clientModelConfigs", .jarr [.jobj [("label", .jstr "m"),
        ("quotaInfo", .jobj [("resetTime", .jstr "2025-06-01T12:00:00")])]])])])])).map
      (fun items => items.map (fun it =>
        (it.label, it.remaining_fraction, it.reset_time.map (fun dt => dt.aware))))
      = .ok [("m", none, some false)] := rfl

/-- C6 (amended, theorem): the primary body is returned on its success
regardless of the fallback; on primary failure the single fallback request
decides the outcome — its parseable body is returned even with a
non-success status, and the `RuntimeError` is raised only when the fallback
has a transport failure or an unparseable body, in which case the probe's
`run` surfaces the error text in its `ok=false` reason instead of a
payload. -/
theorem fetch_user_status_fallback_behavior :
    (∀ (j : Json) (fb : HttpOutcome), fetch_user_status (.resp 200 (some j)) fb = .ok j)
    ∧ (∀ (p : HttpOutcome) (st : ℕ) (j : Json), primarySuccess p = false →
        fetch_user_status p (.resp st (some j)) = .ok j)
    ∧ (∀ (p : HttpOutcome) (st : ℕ), primarySuccess p = false →
        fetch_user_status p (.resp st none) = .error "Antigravity quota endpoints failed")
    ∧ (∀ p : HttpOutcome, primarySuccess p = false →
        fetch_user_status p .exc = .error "Antigravity quota endpoints failed")
    ∧ (∀ (env : AgEnv) (pid : ℤ) (cmdline tok : String) (cp : ℤ),
        env.proc = some (pid, cmdline) →
        extract_flag_from_cmd cmdline "--csrf_token" = some tok →
        (agPortsFor env pid cmdline).isEmpty = false →
        probe_connect_port (agPortsFor env pid cmdline) env.portOk = some cp →
        cp ≠ 0 →
        fetch_user_status env.fetchPrimary env.fetchFallback =
          .error "Antigravity quota endpoints failed" →
        agProbeRun env = .ok [("ok", .rB false),
          ("reason", .rS "Failed to fetch user status: Antigravity quota endpoints failed")]) := by
  have hnotsucc : ∀ p : HttpOutcome, primarySuccess p = false →
      ∀ fb, fetch_user_status p fb =
        (match fb with
          | .resp status (some j) => if status = 200 then .ok j else .ok j
          | .resp _ none => .error "Antigravity quota endpoints failed"
          | .exc => .error "Antigravity quota endpoints failed") := by
    intro p hp fb
    cases p with
    | exc => rfl
    | resp st body =>
      cases body with
      | none =>
        unfold fetch_user_status
        split
        · rename_i heq
          cases heq
        · rfl
      | some jb =>
        by_cases h200 : st = 200
        · subst h200
          simp [primarySuccess] at hp
        · unfold fetch_user_status
          split
          · rename_i heq
            cases heq
            exact absurd rfl h200
          · rfl
  refine ⟨fun j fb => rfl, ?_, ?_, ?_, ?_⟩
  · intro p st j hp
    rw [hnotsucc p hp]
    by_cases h : st = 200 <;> simp [h]
  · intro p st hp
    rw [hnotsucc p hp]
  · intro p hp
    rw [hnotsucc p hp]
  · intro env pid cmdline tok cp h1 h2 h3 h4 h5 h6
    unfold agProbeRun
    simp only [h1, h2, h3, h4, h6]
    simp [h5]
    rfl

/-- Witness for C6: a dead primary plus a fallback answering 500 with a
JSON body yields that body as the payload. -/
theorem fetch_user_status_fallback_behavior_witness :
    fetch_user_status .exc (.resp 500 (some (.jobj []))) = .ok (.jobj []) :=
  fetch_user_status_fallback_behavior.2.1 .exc 500 (.jobj []) rfl

/-- Counterexample for C6: both requests fail in the claim's sense (primary
500 with unparseable body, fallback 503), yet the function returns the
fallback's JSON payload instead of failing with a transport error. -/
theorem fetch_user_status_nonsuccess_payload_counterexample :
    fetch_user_status (.resp 500 none) (.resp 503 (some (.jobj [("x", .jnum 1)])))
      = .ok (.jobj [("x", .jnum 1)]) := rfl

/-- Whatever fraction the legacy candidate loop accepts lies in `[0,1]`. -/
lemma legacyRem_mem_unit :
    ∀ (cands : List Json) (r : ℚ), legacyRemOfCandidates cands = some r →
      0 ≤ r ∧ r ≤ 1 := by
  intro cands
  induction cands with
  | nil => intro r h; simp [legacyRemOfCandidates] at h
  | cons c rest ih =>
    intro r h
    rcases hv : pyFloatCandidate c with _ | v
    · simp only [legacyRemOfCandidates, hv] at h
      exact ih r h
    · simp only [legacyRemOfCandidates, hv] at h
      by_cases hin : 0 ≤ v ∧ v ≤ 1
      · rw [if_pos hin] at h
        injection h with h2
        subst h2
        exact hin
      · rw [if_neg hin] at h
        by_cases hpct : 1 < v ∧ v ≤ 100
        · rw [if_pos hpct] at h
          injection h with h2
          subst h2
          constructor
          · exact div_nonneg (by linarith [hpct.1]) (by norm_num)
          · exact (div_le_one (by norm_num)).mpr hpct.2
        · rw [if_neg hpct] at h
          exact ih r h

/-- C1 (amended, theorem): the `[0,1]` normalization (keep `f ∈ [0,1]`,
divide `f ∈ (1,100]` by 100, skip anything else) is applied by the generic
fallback extractor `_extract_quota_legacy` only; the bucket path of
`_extract_quota_from_api_resp` and `parse_quota_items` pass numeric values
through unchanged, so their items carry a fraction outside `[0,1]` whenever
the payload does. -/
theorem remaining_fraction_normalization_scope :
    (∀ (resp : Json) (l : LegacyQuota) (r : ℚ), extract_quota_legacy resp = some l →
        l.remaining_fraction = some r → 0 ≤ r ∧ r ≤ 1)
    ∧ (∀ f : ℚ, 0 ≤ f → f ≤ 1 → legacyRemOfCandidates [.jnum f] = some f)
    ∧ (∀ f : ℚ, 1 < f → f ≤ 100 → legacyRemOfCandidates [.jnum f] = some (f / 100))
    ∧ (∀ (mid : String) (f : ℚ), mid ≠ "" →
        ∃ q : ApiQuota,
          extract_quota_from_api_resp
              [("buckets", .jarr [.jobj [("modelId", .jstr mid), ("remainingFraction", .jnum f)]])]
            = .ok (some (.bucketed q))
          ∧ q.model_quotas = [⟨mid, f, none⟩])
    ∧ (∀ (lab : String) (f : ℚ),
        ∃ it, parse_quota_items (.jobj [("userStatus", .jobj [("cascadeModelConfigData",
            .jobj [("clientModelConfigs", .jarr [.jobj [("label", .jstr lab),
            ("quotaInfo", .jobj [("remainingFraction", .jnum f)])]])])])]) = .ok [it]
          ∧ it.remaining_fraction = some f) := by
  refine ⟨?_, ?_, ?_, ?_, ?_⟩
  · intro resp l r hl hr
    simp only [extract_quota_legacy] at hl
    split at hl
    · cases hl
    · injection hl with h2
      subst h2
      exact legacyRem_mem_unit _ r hr
  · intro f h0 h1
    simp only [legacyRemOfCandidates, pyFloatCandidate]
    rw [if_pos ⟨h0, h1⟩]
  · intro f h1 h100
    have hnot : ¬(0 ≤ f ∧ f ≤ 1) := fun hc => absurd hc.2 (not_le.mpr h1)
    simp only [legacyRemOfCandidates, pyFloatCandidate]
    rw [if_neg hnot, if_pos ⟨h1, h100⟩]
  · intro mid f h
    have htr : (Json.jstr mid).truthy = true := by
      simp [Json.truthy, h]
    refine ⟨buildApiQuota [⟨mid, f, none⟩]
      (.jobj [("buckets", .jarr [.jobj [("modelId", .jstr mid), ("remainingFraction", .jnum f)]])]),
      ?_, rfl⟩
    simp [extract_quota_from_api_resp, parseBuckets, parseBucketRaw, jgetD, jget, Json.truthy,
      Json.isNull, pyFloatExc, rawToModel, h, List.mapM, List.mapM.loop, Except.bind, bind,
      Except.pure, pure, Functor.map, Except.map]
  · intro lab f
    by_cases hlab : lab = ""
    · subst hlab
      exact ⟨⟨"", some f, none⟩, rfl, rfl⟩
    · refine ⟨⟨lab, some f, none⟩, ?_, rfl⟩
      simp [parse_quota_items, quotaConfigs, navGet, jgetD, jget, parseQuotaItem, Json.truthy,
        hlab, List.mapM, List.mapM.loop, Except.bind, bind, Except.pure, pure, Functor.map,
        Except.map, pyValOfJson, try_parse_time]

/-- Witness for C1: a fraction already in `[0,1]` is kept; a percentage in
`(1,100]` is divided by 100 by the legacy extractor. -/
theorem remaining_fraction_normalization_scope_witness :
    legacyRemOfCandidates [.jnum 1] = some 1
    ∧ legacyRemOfCandidates [.jnum 80] = some ((80 : ℚ) / 100) :=
  ⟨remaining_fraction_normalization_scope.2.1 1 (by norm_num) (by norm_num),
   remaining_fraction_normalization_scope.2.2.1 80 (by norm_num) (by norm_num)⟩

/-- Counterexample for C1: a bucket reporting `remainingFraction = 50`
leaves extraction as `remaining_fraction = 50`, which is outside `[0,1]` —
the bucket path never divides by 100. -/
theorem extraction_unnormalized_fraction_counterexample :
    extract_quota_from_api_resp
        [("buckets", .jarr [.jobj [("modelId", .jstr "m-pro"), ("remainingFraction", .jnum 50)]])]
      = .ok (some (.bucketed
          { remaining_fraction := some 50
            reset_time := none
            tiers := [⟨"Pro", 50, none, ["m-pro"]⟩]
            model_quotas := [⟨"m-pro", 50, none⟩]
            raw := .jobj [("buckets", .jarr
              [.jobj [("modelId", .jstr "m-pro"), ("remainingFraction", .jnum 50)]])] }))
    ∧ ¬ ((50 : ℚ) ≤ 1) :=
  ⟨rfl, by norm_num⟩

/-- The accumulator form of Python's `min(..., key=f)`. -/
lemma minByAux_map {α : Type} (f : α → ℚ) :
    ∀ (xs : List α) (a : α),
      f (xs.foldl (fun acc y => if f y < f acc then y else acc) a) =
        match listMinQ (xs.map f) with
        | none => f a
        | some m => min (f a) m := by
  intro xs
  induction xs with
  | nil => intro a; rfl
  | cons y ys ih =>
    intro a
    simp only [List.foldl_cons, List.map_cons, listMinQ]
    rw [ih (if f y < f a then y else a)]
    have hfy : f (if f y < f a then y else a) = min (f a) (f y) := by
      by_cases hc : f y < f a
      · simp [hc, min_eq_right (le_of_lt hc)]
      · push_neg at hc
        simp [not_lt_of_le hc, min_eq_left hc]
    rcases hl : listMinQ (ys.map f) with _ | m
    · simp [hl, hfy]
    · simp [hl, hfy, min_assoc]

/-- Python `min(xs, key=f)` attains exactly the minimum of the key values. -/
lemma minBy_map {α : Type} (f : α → ℚ) (xs : List α) :
    (minBy f xs).map f = listMinQ (xs.map f) := by
  cases xs with
  | nil => rfl
  | cons x xs =>
    simp only [minBy, Option.map_some', List.map_cons, listMinQ]
    rw [minByAux_map f xs x]
    rcases hl : listMinQ (xs.map f) with _ | m
    · simp [hl]
    · simp [hl]

/-- Definitional reduction of an `Except` bind on a success. -/
lemma except_ok_bind {ε α β : Type} (a : α) (f : α → Except ε β) :
    (Except.ok a >>= f) = f a := rfl

/-- Definitional reduction of an `Except` bind on an error. -/
lemma except_error_bind {ε α β : Type} (e : ε) (f : α → Except ε β) :
    ((Except.error e : Except ε α) >>= f) = Except.error e := rfl

/-- Inversion of the bucket path: a `bucketed` result always is
`buildApiQuota` of some parsed model list over the original dict. -/
lemma extract_bucketed_inv (fields : List (String × Json)) (q : ApiQuota)
    (h : extract_quota_from_api_resp fields = .ok (some (.bucketed q))) :
    ∃ models, q = buildApiQuota models (.jobj fields) := by
  simp only [extract_quota_from_api_resp] at h
  split at h
  · rcases hleg : extract_quota_legacy (.jobj fields) with _ | l <;>
      simp [hleg] at h
  · split at h
    · rename_i buckets bs hbs
      rcases hr : parseBuckets bs with e | raws
      · rw [hr, except_error_bind] at h
        cases h
      · rw [hr, except_ok_bind] at h
        split at h
        · injection h with h2
          cases h2
        · rcases hm : raws.mapM rawToModel with e | models
          · rw [hm, except_error_bind] at h
            cases h
          · rw [hm, except_ok_bind] at h
            injection h with h2
            injection h2 with h3
            cases h3
            exact ⟨models, rfl⟩
    · cases h

/-- C5 (confirmed): on the two-bucket example the extraction yields exactly
two model quotas, tier `Pro` at 1/5 and tier `Flash` at 4/5, with overall
minimum 1/5; in general every tier summary carries the lowest remaining
fraction of its tier, and the returned headline `remaining_fraction` is the
minimum over all tier members, every `bucketed` result being
`buildApiQuota` of the parsed models. -/
theorem extract_bucket_tiers_and_overall_min :
    (extract_quota_from_api_resp
        [("buckets", .jarr [
          .jobj [("modelId", .jstr "gemini-pro"), ("remainingFraction", .jnum (mkRat 1 5))],
          .jobj [("modelId", .jstr "gemini-flash"), ("remainingFraction", .jnum (mkRat 4 5))]])]
      = .ok (some (.bucketed
          { remaining_fraction := some (mkRat 1 5)
            reset_time := none
            tiers := [⟨"Pro", mkRat 1 5, none, ["gemini-pro"]⟩,
                      ⟨"Flash", mkRat 4 5, none, ["gemini-flash"]⟩]
            model_quotas := [⟨"gemini-pro", mkRat 1 5, none⟩, ⟨"gemini-flash", mkRat 4 5, none⟩]
            raw := .jobj [("buckets", .jarr [
              .jobj [("modelId", .jstr "gemini-pro"), ("remainingFraction", .jnum (mkRat 1 5))],
              .jobj [("modelId", .jstr "gemini-flash"), ("remainingFraction", .jnum (mkRat 4 5))]])] })))
    ∧ (∀ (models : List ModelQuota) (rawResp : Json),
        (∀ t ∈ (buildApiQuota models rawResp).tiers,
          (t.tier = "Pro" → some t.remaining_fraction =
            listMinQ ((models.filter (tierMatch "pro")).map (fun m => m.remaining_fraction)))
          ∧ (t.tier = "Flash" → some t.remaining_fraction =
            listMinQ ((models.filter (tierMatch "flash")).map (fun m => m.remaining_fraction))))
        ∧ (buildApiQuota models rawResp).remaining_fraction =
            listMinQ ((models.filter (tierMatch "pro") ++ models.filter (tierMatch "flash")).map
              (fun m => m.remaining_fraction)))
    ∧ (∀ (fields : List (String × Json)) (q : ApiQuota),
        extract_quota_from_api_resp fields = .ok (some (.bucketed q)) →
        ∃ models, q = buildApiQuota models (.jobj fields)) := by
  refine ⟨rfl, ?_, extract_bucketed_inv⟩
  intro models rawResp
  constructor
  · intro t ht
    simp only [buildApiQuota] at ht
    rcases List.mem_append.mp ht with hmem | hmem
    · rcases hp : minBy (fun q => q.remaining_fraction) (models.filter (tierMatch "pro"))
        with _ | pm
      · simp [hp] at hmem
      · rw [hp] at hmem
        rcases List.mem_singleton.mp hmem with rfl
        constructor
        · intro _
          have := minBy_map (fun q => q.remaining_fraction) (models.filter (tierMatch "pro"))
          rw [hp] at this
          simpa using this
        · intro hcon
          simp at hcon
    · rcases hf : minBy (fun q => q.remaining_fraction) (models.filter (tierMatch "flash"))
        with _ | fm
      · simp [hf] at hmem
      · rw [hf] at hmem
        rcases List.mem_singleton.mp hmem with rfl
        constructor
        · intro hcon
          simp at hcon
        · intro _
          have := minBy_map (fun q => q.remaining_fraction) (models.filter (tierMatch "flash"))
          rw [hf] at this
          simpa using this
  · show (minBy (fun q => q.remaining_fraction)
        (models.filter (tierMatch "pro") ++ models.filter (tierMatch "flash"))).map
          (fun q => q.remaining_fraction) = _
    rw [minBy_map]

/-- Witness for C5: the inversion applied to the concrete two-bucket
response recovers its parsed model list. -/
theorem extract_bucket_tiers_and_overall_min_witness :
    ∃ models,
      ({ remaining_fraction := some (mkRat 1 5)
         reset_time := none
         tiers := [⟨"Pro", mkRat 1 5, none, ["gemini-pro"]⟩,
                   ⟨"Flash", mkRat 4 5, none, ["gemini-flash"]⟩]
         model_quotas := [⟨"gemini-pro", mkRat 1 5, none⟩, ⟨"gemini-flash", mkRat 4 5, none⟩]
         raw := .jobj [("buckets", .jarr [
           .jobj [("modelId", .jstr "gemini-pro"), ("remainingFraction", .jnum (mkRat 1 5))],
           .jobj [("modelId", .jstr "gemini-flash"), ("remainingFraction", .jnum (mkRat 4 5))]])] } : ApiQuota)
        = buildApiQuota models (.jobj [("buckets", .jarr [
            .jobj [("modelId", .jstr "gemini-pro"), ("remainingFraction", .jnum (mkRat 1 5))],
            .jobj [("modelId", .jstr "gemini-flash"), ("remainingFraction", .jnum (mkRat 4 5))]])]) :=
  extract_bucket_tiers_and_overall_min.2.2
    [("buckets", .jarr [
      .jobj [("modelId", .jstr "gemini-pro"), ("remainingFraction", .jnum (mkRat 1 5))],
      .jobj [("modelId", .jstr "gemini-flash"), ("remainingFraction", .jnum (mkRat 4 5))]])]
    _ rfl

/-- C10 (confirmed): in the bucket path a bucket missing `modelId` or
`remainingFraction` produces no quota item whatever its `resetTime`, and a
dropped bucket contributes nothing to the loop; the headline
`remaining_fraction` and `reset_time` are the minimum over only the models
whose id contains `pro` or `flash` (case-insensitive), while every parsed
model appears in `model_quotas` and each tier's member list holds exactly
its tier's matching models. -/
theorem bucket_extraction_drop_and_tier_scope :
    (∀ fs : List (String × Json), jget fs "modelId" = none →
        parseBucketRaw (.jobj fs) = .ok none)
    ∧ (∀ fs : List (String × Json), jget fs "remainingFraction" = none →
        parseBucketRaw (.jobj fs) = .ok none)
    ∧ (∀ (b : Json) (rest : List Json), parseBucketRaw b = .ok none →
        parseBuckets (b :: rest) = parseBuckets rest)
    ∧ (∀ (models : List ModelQuota) (rawResp : Json),
        (buildApiQuota models rawResp).remaining_fraction =
          listMinQ ((models.filter (tierMatch "pro") ++ models.filter (tierMatch "flash")).map
            (fun m => m.remaining_fraction))
        ∧ (buildApiQuota models rawResp).reset_time =
          (minBy (fun m => m.remaining_fraction)
            (models.filter (tierMatch "pro") ++ models.filter (tierMatch "flash"))).bind
            (fun m => m.reset_time)
        ∧ (buildApiQuota models rawResp).model_quotas = models
        ∧ ∀ t ∈ (buildApiQuota models rawResp).tiers,
            t.models = (models.filter (tierMatch "pro")).map (fun m => m.model_id)
            ∨ t.models = (models.filter (tierMatch "flash")).map (fun m => m.model_id)) := by
  refine ⟨?_, ?_, ?_, ?_⟩
  · intro fs h
    simp [parseBucketRaw, jgetD, h, Json.truthy]
  · intro fs h
    simp [parseBucketRaw, jgetD, h, Json.isNull]
  · intro b rest h
    simp only [parseBuckets, h, except_ok_bind]
    rcases hr : parseBuckets rest with e | rs
    · simp only [hr, except_error_bind]
    · simp only [hr, except_ok_bind]
  · intro models rawResp
    refine ⟨?_, rfl, rfl, ?_⟩
    · show (minBy (fun q => q.remaining_fraction)
          (models.filter (tierMatch "pro") ++ models.filter (tierMatch "flash"))).map
            (fun q => q.remaining_fraction) = _
      rw [minBy_map]
    · intro t ht
      simp only [buildApiQuota] at ht
      rcases List.mem_append.mp ht with hmem | hmem
      · rcases hp : minBy (fun q => q.remaining_fraction) (models.filter (tierMatch "pro"))
          with _ | pm
        · simp [hp] at hmem
        · rw [hp] at hmem
          rcases List.mem_singleton.mp hmem with rfl
          exact Or.inl rfl
      · rcases hf : minBy (fun q => q.remaining_fraction) (models.filter (tierMatch "flash"))
          with _ | fm
        · simp [hf] at hmem
        · rw [hf] at hmem
          rcases List.mem_singleton.mp hmem with rfl
          exact Or.inr rfl

/-- Witness for C10: a bucket that has a reset time but no model id is
silently dropped. -/
theorem bucket_extraction_drop_and_tier_scope_witness :
    parseBucketRaw (.jobj [("resetTime", .jstr "2025-01-01T00:00:00Z")]) = .ok none :=
  bucket_extraction_drop_and_tier_scope.1 [("resetTime", .jstr "2025-01-01T00:00:00Z")] rfl

/-- An `ok=false` two-field envelope satisfies the result contract. -/
lemma resultInvariant_failure (dk : List String) (s : String)
    (hdk : ∀ k ∈ dk, ¬("ok" = k) ∧ ¬("reason" = k)) :
    resultInvariant dk [("ok", .rB false), ("reason", .rS s)] := by
  refine ⟨by simp [rget, List.find?], fun _ => ⟨⟨s, by simp [rget, List.find?]⟩, ?_⟩⟩
  intro k hk
  obtain ⟨h1, h2⟩ := hdk k hk
  simp [rget, List.find?, h1, h2]

/-- A dict whose `ok` is `true` vacuously satisfies the contract. -/
lemma resultInvariant_ok_true (dk : List String) (r : ProbeDict)
    (h : rget r "ok" = some (.rB true)) : resultInvariant dk r := by
  refine ⟨by simp [h], fun hc => ?_⟩
  rw [h] at hc
  simp at hc

/-- Every early-return envelope of the Gemini API stage has `ok=true`. -/
lemma gemApiStage_some (env : GemEnv) (r : ProbeDict)
    (h : gemApiStage env = .ok (some r)) : resultInvariant gemDataKeys r := by
  unfold gemApiStage at h
  split at h
  · rename_i cfs hcreds
    split at h
    · rename_i tok htok
      split at h
      · split at h
        · rename_i apiJson heq
          rcases he : extractOnJson apiJson with e | parsed
          · rw [he, except_error_bind] at h
            cases h
          · rw [he, except_ok_bind] at h
            cases parsed with
            | some p =>
              injection h with h2
              injection h2 with h3
              subst h3
              exact resultInvariant_ok_true _ _ rfl
            | none =>
              injection h with h2
              injection h2 with h3
              subst h3
              exact resultInvariant_ok_true _ _ rfl
        · injection h with h2
          cases h2
      · injection h with h2
        cases h2
    · injection h with h2
      cases h2
  · injection h with h2
    cases h2

/-- C7 (confirmed): under the orchestrator's wrapper both probes always
produce a mapping with an `ok` key; an `ok=false` mapping carries a string
`reason` and none of the probe's data keys; and a raised exception is
converted into `ok=false` with the exception text in the reason rather
than escaping to the user. -/
theorem probe_result_envelope :
    (∀ env : AgEnv, resultInvariant agDataKeys (mainWrap (agProbeRun env)))
    ∧ (∀ env : GemEnv, resultInvariant gemDataKeys (mainWrap (gemProbeRun env)))
    ∧ (∀ e : String, mainWrap (.error e) =
        [("ok", .rB false), ("reason", .rS ("exception: " ++ e))]) := by
  have hag : ∀ k ∈ agDataKeys, ¬("ok" = k) ∧ ¬("reason" = k) := by decide
  have hgem : ∀ k ∈ gemDataKeys, ¬("ok" = k) ∧ ¬("reason" = k) := by decide
  refine ⟨?_, ?_, fun e => rfl⟩
  · intro env
    unfold agProbeRun
    rcases hp : env.proc with _ | ⟨pid, cmdline⟩
    · exact resultInvariant_failure _ _ hag
    · dsimp only
      rcases hcs : extract_flag_from_cmd cmdline "--csrf_token" with _ | tok
      · exact resultInvariant_failure _ _ hag
      · dsimp only
        cases hpe : (agPortsFor env pid cmdline).isEmpty with
        | true => exact resultInvariant_failure _ _ hag
        | false =>
        rcases hcp : probe_connect_port (agPortsFor env pid cmdline) env.portOk with _ | cp
        · exact resultInvariant_failure _ _ hag
        · dsimp only
          by_cases hz : cp = 0
          · rw [if_pos hz]
            exact resultInvariant_failure _ _ hag
          · rw [if_neg hz]
            rcases hfu : fetch_user_status env.fetchPrimary env.fetchFallback with e | js
            · exact resultInvariant_failure _ _ hag
            · dsimp only
              rcases hpi : parse_quota_items js with e2 | items
              · exact resultInvariant_failure _ _ hag
              · exact resultInvariant_ok_true _ _ rfl
  · intro env
    unfold gemProbeRun
    rcases hstage : gemApiStage env with e | _ | r
    · exact resultInvariant_failure _ _ hgem
    · unfold gemCliStage
      rcases hc : env.cliResp with _ | co
      · exact resultInvariant_failure _ _ hgem
      · cases co with
        | cliJson payload =>
          dsimp only
          rcases he : extractOnJson payload with e | parsed
          · exact resultInvariant_failure _ _ hgem
          · cases parsed with
            | some p => exact resultInvariant_ok_true _ _ rfl
            | none => exact resultInvariant_ok_true _ _ rfl
        | cliRaw t =>
          dsimp only
          rcases hr : extract_quota_from_cli_raw t with _ | p
          · exact resultInvariant_ok_true _ _ rfl
          · exact resultInvariant_ok_true _ _ rfl
    · exact gemApiStage_some env r hstage

/-- Witness for C7: with no discoverable process the wrapped Antigravity
probe reports `ok=false` with a reason and no data fields. -/
theorem probe_result_envelope_witness :
    (∃ s, rget (mainWrap (agProbeRun
        ⟨none, .error (), .error (), fun _ => false, .exc, .exc⟩)) "reason" = some (.rS s))
    ∧ ∀ k ∈ agDataKeys, rget (mainWrap (agProbeRun
        ⟨none, .error (), .error (), fun _ => false, .exc, .exc⟩)) k = none :=
  (probe_result_envelope.1 ⟨none, .error (), .error (), fun _ => false, .exc, .exc⟩).2 rfl

end UsageMonitor
